import Mathlib

/-!
The register virtual machine of simple_vm.

A shallow embedding of `main.cpp`: the instruction record, the register union of
`VirtualMachine`, `Fetch`, the per-opcode handlers and the dispatch loop of `main`,
followed by theorems about them.

Conventions of the embedding.
* A 32-bit cell is kept as its bit pattern (a natural number below `2^32`); `int32_t`
  and `uint32_t` are two readings of the same cell, which is how the register union
  overlays `pc` on `registers[0]`.
* Signed arithmetic that leaves the 32-bit range is reduced modulo `2^32`
  (two's-complement wrap-around).
* The payload of an `Instruction` is one 16-bit pattern shared by `operandB`/`operandC`
  and `uvalue`/`value`, with `operandB` in the low byte, as on the little-endian machines
  the program is built for; a member is read from those bits whichever constructor wrote
  them.
* `Fetch` indexes the instruction vector unchecked. What an index at or past the end
  reads is the memory after the vector's buffer; the machine state carries it as `past`.
* `main` has no error exit. Where the source does something to which C++ gives no meaning
  and that cannot be followed here (an integer division without a quotient, a member
  that no constructor wrote, a payload byte that names no register), the outcome of the
  pass is marked `undefined`; this is the end of what the embedding says about the run,
  not a result the program reports.
-/

namespace SimpleVM

/-! ## Data model -/

/-- The enumeration `OpCode`. -/
inductive OpCode
  | Halt | Load | Store | Inc | Dec | Add | Sub | Mul | Div | And | Jump | JumpIfZero
  deriving DecidableEq, Repr

/-- The enumeration `Register`, in declaration order. -/
inductive Register
  | PC | A | B | C | D | E | F | G
  deriving DecidableEq, Repr

/-- The cast `(uint8_t)reg`: the position of a register name in the enumeration, which
is the index used into `registers[8]`. -/
def Register.index : Register → Nat
  | .PC => 0 | .A => 1 | .B => 2 | .C => 3 | .D => 4 | .E => 5 | .F => 6 | .G => 7

/-- The register whose position in the enumeration is the byte `n`, when there is one:
a byte of 8 or more names no register and would index past `registers[8]`. -/
def Register.ofIndex : Nat → Option Register
  | 0 => some .PC | 1 => some .A | 2 => some .B | 3 => some .C
  | 4 => some .D | 5 => some .E | 6 => some .F | 7 => some .G
  | _ => none

/-- A 32-bit storage cell, kept as its bit pattern. -/
structure Word where
  bits : Nat
  bound : bits < 4294967296
  deriving DecidableEq

/-- The cell read as `uint32_t`. -/
def Word.toUInt32 (w : Word) : Nat := w.bits

/-- The cell read as `int32_t` (two's complement). -/
def Word.toInt32 (w : Word) : Int :=
  if w.bits < 2147483648 then (w.bits : Int) else (w.bits : Int) - 4294967296

/-- The cell holding an integer result, reduced modulo `2^32`. -/
def Word.ofInt (x : Int) : Word :=
  ⟨(x % 4294967296).toNat, by
    have h1 : 0 ≤ x % 4294967296 := Int.emod_nonneg x (by decide)
    have h2 : x % 4294967296 < 4294967296 := Int.emod_lt_of_pos x (by decide)
    omega⟩

/-- The value of an exact integer result once stored in an `int32_t`: the representative
of `x` modulo `2^32` in the range `[-2^31, 2^31)`. -/
def wrap32 (x : Int) : Int := (x + 2147483648) % 4294967296 - 2147483648

/-- A 16-bit pattern read as `int16_t`. -/
def toInt16 (bits : Nat) : Int :=
  if bits % 65536 < 32768 then ((bits % 65536 : Nat) : Int) else ((bits % 65536 : Nat) : Int) - 65536

/-- The 16-bit pattern of an integer argument converted to `uint16_t`. -/
def toUInt16 (x : Int) : Nat := (x % 65536).toNat

/-- The record `Instruction`, one constructor per C++ constructor. The first leaves
`operandA` and the payload unwritten and the second leaves the payload unwritten: those
members are indeterminate in the source and have no reading here. The third takes a
`uint16_t` and stores it through `value`; the fourth stores `operandB` and `operandC`.
The payload members are readings of the same 16 bits. -/
inductive Instruction
  | ofOp (op : OpCode)
  | ofOpReg (op : OpCode) (operandA : Register)
  | ofOpRegValue (op : OpCode) (operandA : Register) (value : Nat)
  | ofOpRegs (op : OpCode) (operandA operandB operandC : Register)
  deriving DecidableEq, Repr

/-- Member `op`. -/
def Instruction.op : Instruction → OpCode
  | .ofOp op => op
  | .ofOpReg op _ => op
  | .ofOpRegValue op _ _ => op
  | .ofOpRegs op _ _ _ => op

/-- Member `operandA`, when written. -/
def Instruction.operandA : Instruction → Option Register
  | .ofOp _ => none
  | .ofOpReg _ a => some a
  | .ofOpRegValue _ a _ => some a
  | .ofOpRegs _ a _ _ => some a

/-- Member `operandB`: the low byte of the payload, when the payload was written and the
byte names a register. -/
def Instruction.operandB : Instruction → Option Register
  | .ofOpRegs _ _ b _ => some b
  | .ofOpRegValue _ _ v => Register.ofIndex (v % 256)
  | _ => none

/-- Member `operandC`: the high byte of the payload, when the payload was written and the
byte names a register. -/
def Instruction.operandC : Instruction → Option Register
  | .ofOpRegs _ _ _ c => some c
  | .ofOpRegValue _ _ v => Register.ofIndex (v / 256 % 256)
  | _ => none

/-- Member `uvalue`: the 16-bit payload read unsigned, when the payload was written. -/
def Instruction.uvalue : Instruction → Option Nat
  | .ofOpRegValue _ _ v => some (v % 65536)
  | .ofOpRegs _ _ b c => some (b.index + 256 * c.index)
  | _ => none

/-- Member `value`: the 16-bit payload read signed, when the payload was written. -/
def Instruction.value : Instruction → Option Int
  | .ofOpRegValue _ _ v => some (toInt16 v)
  | .ofOpRegs _ _ b c => some (toInt16 (b.index + 256 * c.index))
  | _ => none

/-- The structure `VirtualMachine`: the instruction vector, the stack vector and the
eight cells of the register union. The field `past` is not a member of the C++ object:
it is the memory after the buffer of `instructions`, as the unchecked `instructions[i]`
reads it for an index `i` at or past the end. No operation of the program writes it. -/
structure VirtualMachine where
  instructions : List Instruction
  stack : List Word
  registers : Register → Word
  past : Nat → Instruction

/-- Memory that reads, at every index, as an instruction whose opcode has no case in the
switch of `main`. -/
def storeMemory : Nat → Instruction := fun _ => .ofOp .Store

/-- The constructor `VirtualMachine()`: every register zero, both vectors empty. The
memory after the instruction buffer, which the constructor does not determine, is taken
to be `storeMemory`; statements about reading past the end are made for every machine. -/
def VirtualMachine.new : VirtualMachine :=
  { instructions := [], stack := [], registers := fun _ => ⟨0, by decide⟩,
    past := storeMemory }

/-- The union member `pc`: cell 0 read as `uint32_t`. -/
def VirtualMachine.pc (vm : VirtualMachine) : Nat := (vm.registers Register.PC).toUInt32

/-- The read `vm->registers[(uint8_t)r]`, an `int32_t`. -/
def VirtualMachine.reg (vm : VirtualMachine) (r : Register) : Int := (vm.registers r).toInt32

/-- The write `vm->registers[(uint8_t)r] = x` of an integer result. -/
def VirtualMachine.setReg (vm : VirtualMachine) (r : Register) (x : Int) : VirtualMachine :=
  { vm with registers := Function.update vm.registers r (Word.ofInt x) }

/-- The write `vm->pc = n` of an unsigned value. -/
def VirtualMachine.setPc (vm : VirtualMachine) (n : Nat) : VirtualMachine :=
  { vm with registers := Function.update vm.registers Register.PC (Word.ofInt (n : Int)) }

/-! ## Fetch and the handlers -/

/-- The function `Fetch`: what the unchecked `instructions[pc]` reads at the old `pc`
(the element at that index, or past the end the memory after the buffer), and the
machine with `pc` incremented as a `uint32_t`. -/
def Fetch (vm : VirtualMachine) : Instruction × VirtualMachine :=
  ((vm.instructions[vm.pc]?).getD (vm.past vm.pc), vm.setPc (vm.pc + 1))

/-- The handler `Load`. -/
def Load (vm : VirtualMachine) (operandA : Register) (value : Int) : VirtualMachine :=
  vm.setReg operandA value

/-- The handler `Inc`. -/
def Inc (vm : VirtualMachine) (operandA : Register) : VirtualMachine :=
  vm.setReg operandA (vm.reg operandA + 1)

/-- The handler `Dec`. -/
def Dec (vm : VirtualMachine) (operandA : Register) : VirtualMachine :=
  vm.setReg operandA (vm.reg operandA - 1)

/-- The handler `Add`. -/
def Add (vm : VirtualMachine) (operandA operandB operandC : Register) : VirtualMachine :=
  vm.setReg operandC (vm.reg operandA + vm.reg operandB)

/-- The handler `Sub`. -/
def Sub (vm : VirtualMachine) (operandA operandB operandC : Register) : VirtualMachine :=
  vm.setReg operandC (vm.reg operandA - vm.reg operandB)

/-- The handler `Mul`. -/
def Mul (vm : VirtualMachine) (operandA operandB operandC : Register) : VirtualMachine :=
  vm.setReg operandC (vm.reg operandA * vm.reg operandB)

/-- The operator `/` of C++ on two `int32_t`: the quotient rounded toward zero. For a zero
divisor, and for -2^31 divided by -1, there is no quotient in `int32_t`: C++ gives the
division no meaning and the processor raises an exception. -/
def int32Div (x y : Int) : Option Int :=
  if y = 0 ∨ (x = -2147483648 ∧ y = -1) then none else some (Int.tdiv x y)

/-- The handler `Div`: the assignment of the quotient, with no test of the divisor. Where
the division has no result the assignment never happens and the handler does not
return (`none`). -/
def Div (vm : VirtualMachine) (operandA operandB operandC : Register) : Option VirtualMachine :=
  (int32Div (vm.reg operandA) (vm.reg operandB)).map (fun q => vm.setReg operandC q)

/-- The handler `And`: C++ `&&`, whose result is 0 or 1. -/
def And (vm : VirtualMachine) (operandA operandB operandC : Register) : VirtualMachine :=
  vm.setReg operandC (if vm.reg operandA ≠ 0 ∧ vm.reg operandB ≠ 0 then 1 else 0)

/-- The handler `Jump`. -/
def Jump (vm : VirtualMachine) (uvalue : Nat) : VirtualMachine :=
  vm.setPc uvalue

/-- The handler `JumpIfZero`. -/
def JumpIfZero (vm : VirtualMachine) (operandA : Register) (uvalue : Nat) : VirtualMachine :=
  if vm.reg operandA = 0 then vm.setPc uvalue else vm

/-! ## The loop of `main` -/

/-- What the source does without C++ giving it a meaning, where the embedding stops
following the run: `Division`, an integer division without a quotient; `Operand`, the
use of a member that the constructor of the instruction left unwritten or of a payload
byte that names no register. Neither is an exit of `main`, which has none but `Halt`. -/
inductive Undefined
  | Division
  | Operand
  deriving DecidableEq, Repr

/-- How the machine stands after a pass of the loop: the loop goes on, `main` returned 0
from the `Halt` case, or the pass did something `undefined`. The last carries the
machine as `Fetch` left it, before the handler: for `Division` the handler writes
nothing before it divides; for `Operand` what the handler does is not followed. -/
inductive Outcome
  | running (vm : VirtualMachine)
  | halted (vm : VirtualMachine)
  | undefined (u : Undefined) (vm : VirtualMachine)

/-- The `switch (instruction.op)` of `main`. It has ten cases; `Store` and `And` have
none, so for them control leaves the switch and the loop goes on. Each case reads the
members its handler takes, whichever constructor built the instruction. -/
def dispatch (vm : VirtualMachine) (instruction : Instruction) : Outcome :=
  match instruction.op with
  | .Load =>
    match instruction.operandA, instruction.value with
    | some a, some v => .running (Load vm a v)
    | _, _ => .undefined .Operand vm
  | .Inc =>
    match instruction.operandA with
    | some a => .running (Inc vm a)
    | none => .undefined .Operand vm
  | .Dec =>
    match instruction.operandA with
    | some a => .running (Dec vm a)
    | none => .undefined .Operand vm
  | .Add =>
    match instruction.operandA, instruction.operandB, instruction.operandC with
    | some a, some b, some c => .running (Add vm a b c)
    | _, _, _ => .undefined .Operand vm
  | .Sub =>
    match instruction.operandA, instruction.operandB, instruction.operandC with
    | some a, some b, some c => .running (Sub vm a b c)
    | _, _, _ => .undefined .Operand vm
  | .Mul =>
    match instruction.operandA, instruction.operandB, instruction.operandC with
    | some a, some b, some c => .running (Mul vm a b c)
    | _, _, _ => .undefined .Operand vm
  | .Div =>
    match instruction.operandA, instruction.operandB, instruction.operandC with
    | some a, some b, some c =>
      match Div vm a b c with
      | some vm' => .running vm'
      | none => .undefined .Division vm
    | _, _, _ => .undefined .Operand vm
  | .Jump =>
    match instruction.uvalue with
    | some u => .running (Jump vm u)
    | none => .undefined .Operand vm
  | .JumpIfZero =>
    match instruction.operandA, instruction.uvalue with
    | some a, some u => .running (JumpIfZero vm a u)
    | _, _ => .undefined .Operand vm
  | .Halt => .halted vm
  | .Store => .running vm
  | .And => .running vm

/-- One pass of the body of `for ( ; ; )`: `Fetch`, then the switch on what it read. -/
def cycle (vm : VirtualMachine) : Outcome :=
  dispatch (Fetch vm).2 (Fetch vm).1

/-- The loop `for ( ; ; )`, cut off after `fuel` passes: the outcome of the pass that
left the loop, or `running` with the machine reached when the fuel is used up. -/
def run : Nat → VirtualMachine → Outcome
  | 0, vm => .running vm
  | fuel + 1, vm =>
    match cycle vm with
    | .running vm' => run fuel vm'
    | o => o

/-- The indices fetched by the first `n` passes of the loop, in order. -/
def fetched : Nat → VirtualMachine → List Nat
  | 0, _ => []
  | n + 1, vm =>
    match cycle vm with
    | .running vm' => vm.pc :: fetched n vm'
    | _ => [vm.pc]

/-- The instruction list that `main` installs. -/
def mainProgram : List Instruction :=
  [ .ofOpRegValue .Load .A 0,
    .ofOpRegValue .Load .B 0,
    .ofOpReg .Inc .A,
    .ofOpRegValue .Load .D 10,
    .ofOpRegs .Sub .A .D .C,
    .ofOpRegValue .JumpIfZero .C 2,
    .ofOp .Halt ]

/-- The machine of `main` when the loop is entered (the memory after its seven
instructions is never read: the run halts at index 6). -/
def mainMachine : VirtualMachine :=
  { VirtualMachine.new with instructions := mainProgram }

/-- The function `main`: the loop on the machine it builds; the exit code is 0 when the
loop is left through the `Halt` case. -/
def main (fuel : Nat) : Option Int :=
  match run fuel mainMachine with
  | .halted _ => some 0
  | _ => none

/-- The registers of a machine in enumeration order, read signed, with `pc` read
unsigned in front. -/
def VirtualMachine.snapshot (vm : VirtualMachine) : Nat × List Int :=
  (vm.pc, [vm.reg .A, vm.reg .B, vm.reg .C, vm.reg .D, vm.reg .E, vm.reg .F, vm.reg .G])

/-- The machine carried by an outcome. -/
def Outcome.machine : Outcome → VirtualMachine
  | .running vm => vm
  | .halted vm => vm
  | .undefined _ vm => vm

/-- The value a handler obtains from `registers[r]` in a cycle begun in `vm`: the cell of
`r` as it was, except that `Fetch` has already incremented `pc`, which is cell 0. -/
def VirtualMachine.operandRead (vm : VirtualMachine) (r : Register) : Int :=
  if r = Register.PC then wrap32 ((vm.pc : Int) + 1) else vm.reg r

/-- A machine with the given program and the given contents of `pc`, `a`, `b` and `c`;
the other registers hold 0 and the memory after the program is `storeMemory`. -/
def machineWith (program : List Instruction) (pc : Nat) (a b c : Int) : VirtualMachine :=
  { instructions := program
    stack := []
    registers := fun r =>
      match r with
      | .PC => Word.ofInt (pc : Int)
      | .A => Word.ofInt a
      | .B => Word.ofInt b
      | .C => Word.ofInt c
      | _ => Word.ofInt 0
    past := storeMemory }

/-- A fresh machine about to fetch `Add PC,A,C`. -/
def addPcMachine : VirtualMachine :=
  machineWith [.ofOpRegs .Add .PC .A .C] 0 0 0 0

/-- A machine with A = 2147483647 and B = 1, about to fetch `Add A,B,C`. -/
def addOverflowMachine : VirtualMachine :=
  machineWith [.ofOpRegs .Add .A .B .C] 0 2147483647 1 0

/-- A machine with A = 1, B = 1 and C = 0, about to fetch `And A,B,C`. -/
def andMachine : VirtualMachine :=
  machineWith [.ofOpRegs .And .A .B .C] 0 1 1 0

/-- A machine at program counter 1 with B = 2, about to fetch `Div PC,B,C`. -/
def divFromPcMachine : VirtualMachine :=
  machineWith [.ofOp .Halt, .ofOpRegs .Div .PC .B .C] 1 0 2 0

/-- A machine with A = -7 and B = 2, about to fetch `Div A,B,C`. -/
def divNegMachine : VirtualMachine :=
  machineWith [.ofOpRegs .Div .A .B .C] 0 (-7) 2 0

/-- A machine with A = 7 and B = -2, about to fetch `Div A,B,C`. -/
def divByNegMachine : VirtualMachine :=
  machineWith [.ofOpRegs .Div .A .B .C] 0 7 (-2) 0

/-- A machine with A = 1, B = 2, C = 3, about to fetch a `Jump` to 40000. -/
def jumpMachine : VirtualMachine :=
  machineWith [.ofOpRegValue .Jump .A 40000] 0 1 2 3

/-- A machine with A = 0 about to fetch `JumpIfZero A,9`. -/
def jumpIfZeroMachine : VirtualMachine :=
  machineWith [.ofOpRegValue .JumpIfZero .A 9] 0 0 2 3

/-- A machine whose program has 2^32 instructions, all `JumpIfZero A,7`, with A = 1 and
the program counter on the last of them. -/
def lastIndexJumpMachine : VirtualMachine :=
  machineWith (List.replicate 4294967296 (.ofOpRegValue .JumpIfZero .A 7)) 4294967295 1 0 0

/-- A machine whose program has 2^32 instructions, all `Halt`, with the program counter
on the last of them. -/
def lastIndexHaltMachine : VirtualMachine :=
  machineWith (List.replicate 4294967296 (.ofOp .Halt)) 4294967295 1 2 3

/-- A machine at program counter 1 about to fetch `Halt`. -/
def haltMachine : VirtualMachine :=
  machineWith [.ofOpReg .Inc .A, .ofOp .Halt, .ofOpReg .Inc .A] 1 1 2 3

/-- The machine `main` would enter its loop with, had it installed `program`: the
constructor `VirtualMachine()` followed by the assignment to `instructions`. -/
def freshMachine (program : List Instruction) : VirtualMachine :=
  { VirtualMachine.new with instructions := program }

/-- A machine whose program has 2^32 instructions, all of opcode `Store`, with the
program counter on the last of them. -/
def lastIndexStoreMachine : VirtualMachine :=
  machineWith (List.replicate 4294967296 (.ofOp .Store)) 4294967295 1 2 3

/-- A machine at program counter 1 about to fetch an instruction of opcode `Store`. -/
def storeMachine : VirtualMachine :=
  machineWith [.ofOp .Halt, .ofOpRegs .Store .A .B .C] 1 1 2 3

/-- A machine at program counter 5 about to fetch `Inc PC`. -/
def incPcMachine : VirtualMachine :=
  machineWith [.ofOp .Halt, .ofOp .Halt, .ofOp .Halt, .ofOp .Halt, .ofOp .Halt,
    .ofOpReg .Inc .PC] 5 0 0 0

/-- A machine about to fetch `Load PC,3`. -/
def loadPcMachine : VirtualMachine :=
  machineWith [.ofOpRegValue .Load .PC 3, .ofOp .Halt, .ofOp .Halt, .ofOpReg .Inc .A] 0 0 0 0

/-- The opcodes whose case in the switch of `main` calls a handler that writes a
register. -/
def OpCode.writesRegister : OpCode → Bool
  | .Load => true
  | .Inc => true
  | .Dec => true
  | .Add => true
  | .Sub => true
  | .Mul => true
  | .Div => true
  | _ => false

/-- The register written by the handler the switch of `main` calls for an instruction:
member `operandA` for `Load`, `Inc`, `Dec`; member `operandC` for `Add`, `Sub`, `Mul`,
`Div`, each read from the instruction as the switch reads it (so for an `Add` built with
a payload it is the register named by the payload's high byte; it has no reading when
that member is indeterminate). None for the other opcodes, whose handler writes no
register or which have no case. -/
def Instruction.destination (instruction : Instruction) : Option Register :=
  match instruction.op with
  | .Load => instruction.operandA
  | .Inc => instruction.operandA
  | .Dec => instruction.operandA
  | .Add => instruction.operandC
  | .Sub => instruction.operandC
  | .Mul => instruction.operandC
  | .Div => instruction.operandC
  | _ => none

/-- A machine with A = 2147483647 about to fetch `Inc A` and then `Dec A`. -/
def incDecMachine : VirtualMachine :=
  machineWith [.ofOpReg .Inc .A, .ofOpReg .Dec .A] 0 2147483647 0 0

/-- A machine with A = -2147483648 about to fetch `Dec A`. -/
def decMinMachine : VirtualMachine :=
  machineWith [.ofOpReg .Dec .A] 0 (-2147483648) 0 0

/-- A machine with A = 3, B = 4, C = 5 about to fetch `Add A,B,A`. -/
def addInPlaceMachine : VirtualMachine :=
  machineWith [.ofOpRegs .Add .A .B .A] 0 3 4 5

/-- A machine at program counter 2 about to fetch `JumpIfZero PC,0`. -/
def jumpIfZeroPcMachine : VirtualMachine :=
  machineWith [.ofOp .Halt, .ofOp .Halt, .ofOpRegValue .JumpIfZero .PC 0] 2 0 0 0

/-- A machine with A = 3, B = 4, C = 5 about to fetch an `Add` built with register A and
the payload 770 = 2 + 256 * 3, whose bytes name B and C. -/
def addFromPayloadMachine : VirtualMachine :=
  machineWith [.ofOpRegValue .Add .A 770] 0 3 4 5

/-- A machine with A = 2147483647 and B = 1 about to fetch `Add A,B,A`. -/
def addInPlaceOverflowMachine : VirtualMachine :=
  machineWith [.ofOpRegs .Add .A .B .A] 0 2147483647 1 0

/-- Whether an outcome is `running`. -/
def Outcome.isRunning : Outcome → Bool
  | .running _ => true
  | _ => false

/-! ## Arithmetic of cells -/

theorem Word.toInt32_ofInt (x : Int) : (Word.ofInt x).toInt32 = wrap32 x := by
  unfold Word.toInt32 Word.ofInt wrap32
  simp only
  have h1 : 0 ≤ x % 4294967296 := Int.emod_nonneg x (by decide)
  have h2 : x % 4294967296 < 4294967296 := Int.emod_lt_of_pos x (by decide)
  have h3 : (((x % 4294967296).toNat : Nat) : Int) = x % 4294967296 := Int.toNat_of_nonneg h1
  split <;> omega

theorem Word.toInt32_lower (w : Word) : -2147483648 ≤ w.toInt32 := by
  have := w.bound
  unfold Word.toInt32
  split <;> omega

theorem Word.toInt32_upper (w : Word) : w.toInt32 < 2147483648 := by
  have := w.bound
  unfold Word.toInt32
  split <;> omega

theorem wrap32_of_range (x : Int) (hlo : -2147483648 ≤ x) (hhi : x < 2147483648) :
    wrap32 x = x := by
  unfold wrap32
  omega

theorem wrap32_lower (x : Int) : -2147483648 ≤ wrap32 x := by
  unfold wrap32
  omega

theorem wrap32_upper (x : Int) : wrap32 x < 2147483648 := by
  unfold wrap32
  omega

theorem wrap32_modEq (x : Int) : (wrap32 x - x) % 4294967296 = 0 := by
  unfold wrap32
  omega

theorem toInt16_toUInt16 (v : Int) (hlo : -32768 ≤ v) (hhi : v ≤ 32767) :
    toInt16 (toUInt16 v) = v := by
  unfold toInt16 toUInt16
  have h1 : 0 ≤ v % 65536 := Int.emod_nonneg v (by decide)
  have h2 : v % 65536 < 65536 := Int.emod_lt_of_pos v (by decide)
  have h3 : (((v % 65536).toNat : Nat) : Int) = v % 65536 := Int.toNat_of_nonneg h1
  have h4 : (v % 65536).toNat % 65536 = (v % 65536).toNat := Nat.mod_eq_of_lt (by omega)
  rw [h4]
  split <;> omega

/-! ## Reading after writing -/

theorem VirtualMachine.reg_lower (vm : VirtualMachine) (r : Register) :
    -2147483648 ≤ vm.reg r := Word.toInt32_lower _

theorem VirtualMachine.reg_upper (vm : VirtualMachine) (r : Register) :
    vm.reg r < 2147483648 := Word.toInt32_upper _

theorem VirtualMachine.reg_setReg_same (vm : VirtualMachine) (r : Register) (x : Int) :
    (vm.setReg r x).reg r = wrap32 x := by
  simp [VirtualMachine.setReg, VirtualMachine.reg, Word.toInt32_ofInt]

theorem VirtualMachine.registers_setReg_other (vm : VirtualMachine) (r q : Register) (x : Int)
    (h : q ≠ r) : (vm.setReg r x).registers q = vm.registers q := by
  simp [VirtualMachine.setReg, Function.update_noteq h]

theorem VirtualMachine.reg_setReg_other (vm : VirtualMachine) (r q : Register) (x : Int)
    (h : q ≠ r) : (vm.setReg r x).reg q = vm.reg q := by
  simp [VirtualMachine.reg, VirtualMachine.registers_setReg_other vm r q x h]

theorem VirtualMachine.pc_setPc (vm : VirtualMachine) (n : Nat) :
    (vm.setPc n).pc = n % 4294967296 := by
  simp only [VirtualMachine.setPc, VirtualMachine.pc, Function.update_same, Word.toUInt32,
    Word.ofInt]
  omega

theorem VirtualMachine.registers_setPc_other (vm : VirtualMachine) (n : Nat) (q : Register)
    (h : q ≠ Register.PC) : (vm.setPc n).registers q = vm.registers q := by
  simp [VirtualMachine.setPc, Function.update_noteq h]

theorem VirtualMachine.reg_setPc_other (vm : VirtualMachine) (n : Nat) (q : Register)
    (h : q ≠ Register.PC) : (vm.setPc n).reg q = vm.reg q := by
  simp [VirtualMachine.reg, VirtualMachine.registers_setPc_other vm n q h]

theorem VirtualMachine.reg_setPc_same (vm : VirtualMachine) (n : Nat) :
    (vm.setPc n).reg Register.PC = wrap32 (n : Int) := by
  simp [VirtualMachine.setPc, VirtualMachine.reg, Word.toInt32_ofInt]

/-! ## The shape of a cycle -/

theorem cycle_of_fetch (vm : VirtualMachine) (instruction : Instruction)
    (h : vm.instructions[vm.pc]? = some instruction) :
    cycle vm = dispatch (vm.setPc (vm.pc + 1)) instruction := by
  simp [cycle, Fetch, h]

theorem cycle_past_end (vm : VirtualMachine) (h : vm.instructions[vm.pc]? = none) :
    cycle vm = dispatch (vm.setPc (vm.pc + 1)) (vm.past vm.pc) := by
  simp [cycle, Fetch, h]

theorem Div_eq_some (vm w : VirtualMachine) (a b c : Register)
    (h : Div vm a b c = some w) :
    w = vm.setReg c (Int.tdiv (vm.reg a) (vm.reg b)) := by
  unfold Div int32Div at h
  split at h
  · cases h
  · simp only [Option.map_some', Option.some.injEq] at h
    exact h.symm

theorem dispatch_vectors (vm : VirtualMachine) (instruction : Instruction) :
    (dispatch vm instruction).machine.instructions = vm.instructions ∧
    (dispatch vm instruction).machine.stack = vm.stack := by
  unfold dispatch
  split
  · split <;> exact ⟨rfl, rfl⟩
  · split <;> exact ⟨rfl, rfl⟩
  · split <;> exact ⟨rfl, rfl⟩
  · split <;> exact ⟨rfl, rfl⟩
  · split <;> exact ⟨rfl, rfl⟩
  · split <;> exact ⟨rfl, rfl⟩
  · split
    · split
      · rename_i w hw
        have hw2 := Div_eq_some _ _ _ _ _ hw
        subst hw2
        exact ⟨rfl, rfl⟩
      · exact ⟨rfl, rfl⟩
    · exact ⟨rfl, rfl⟩
  · split <;> exact ⟨rfl, rfl⟩
  · split
    · simp only [Outcome.machine, JumpIfZero]
      split <;> exact ⟨rfl, rfl⟩
    · exact ⟨rfl, rfl⟩
  · exact ⟨rfl, rfl⟩
  · exact ⟨rfl, rfl⟩
  · exact ⟨rfl, rfl⟩

theorem run_add_of_halted (n k : Nat) (vm vm' : VirtualMachine)
    (h : run n vm = .halted vm') : run (n + k) vm = .halted vm' := by
  induction n generalizing vm with
  | zero => simp [run] at h
  | succ m ih =>
    rw [Nat.add_right_comm]
    simp only [run] at h ⊢
    cases hc : cycle vm with
    | running w => rw [hc] at h; exact ih w h
    | halted w => rw [hc] at h; exact h
    | undefined u w => rw [hc] at h; exact h

/-! ## The reference program -/

/-- Claim C1. The program installed by `main`, run from the freshly constructed machine,
leaves the loop through `Halt` (exit code 0) in its 7th cycle, whatever fuel of at least
7 is given and not before; the indices fetched are 0, 1, ..., 6, each once; the final
machine has A=1, B=0, C=-9, D=10, E=F=G=0 and program counter 7. -/
theorem main_reference_run :
    ∃ vm : VirtualMachine,
      (∀ k : Nat, run (7 + k) mainMachine = .halted vm ∧ main (7 + k) = some 0) ∧
      (∀ k : Nat, k < 7 → (run k mainMachine).isRunning = true) ∧
      fetched 7 mainMachine = [0, 1, 2, 3, 4, 5, 6] ∧
      vm.pc = 7 ∧ vm.reg .A = 1 ∧ vm.reg .B = 0 ∧ vm.reg .C = -9 ∧ vm.reg .D = 10 ∧
      vm.reg .E = 0 ∧ vm.reg .F = 0 ∧ vm.reg .G = 0 := by
  have h7 : run 7 mainMachine = .halted (run 7 mainMachine).machine := rfl
  refine ⟨(run 7 mainMachine).machine, ?_, by decide, by decide, by decide, by decide,
    by decide, by decide, by decide, by decide, by decide, by decide⟩
  intro k
  have hk := run_add_of_halted 7 k mainMachine _ h7
  refine ⟨hk, ?_⟩
  simp only [main, hk]

/-! ## Load -/

/-- Claim C2. For every register `r` (other than PC, and PC read signed as well), every
machine and every immediate `v` in [-32768, 32767], a cycle that fetches `Load r,v` (the
instruction built from `v` converted to the 16-bit payload) completes and leaves `r`
holding exactly `v`, whatever it held before. -/
theorem load_cycle_reads_back (vm : VirtualMachine) (r : Register) (v : Int)
    (hlo : -32768 ≤ v) (hhi : v ≤ 32767)
    (hfetch : vm.instructions[vm.pc]? = some (.ofOpRegValue .Load r (toUInt16 v))) :
    ∃ vm' : VirtualMachine, cycle vm = .running vm' ∧ vm'.reg r = v := by
  refine ⟨Load (vm.setPc (vm.pc + 1)) r v, ?_, ?_⟩
  · rw [cycle_of_fetch vm _ hfetch]
    simp [dispatch, Instruction.op, Instruction.operandA, Instruction.value,
      toInt16_toUInt16 v hlo hhi]
  · rw [Load, VirtualMachine.reg_setReg_same]
    exact wrap32_of_range v (by omega) (by omega)

/-- Witness for C2: a machine about to fetch `Load A,-5`. -/
theorem load_cycle_reads_back_witness :
    ∃ vm' : VirtualMachine,
      cycle { VirtualMachine.new with
        instructions := [.ofOpRegValue .Load .A (toUInt16 (-5))] } = .running vm' ∧
      vm'.reg .A = -5 :=
  load_cycle_reads_back _ .A (-5) (by decide) (by decide) (by decide)

/-! ## Add, Sub, Mul -/

theorem VirtualMachine.reg_after_fetch (vm : VirtualMachine) (r : Register) :
    (vm.setPc (vm.pc + 1)).reg r = vm.operandRead r := by
  unfold VirtualMachine.operandRead
  by_cases h : r = Register.PC
  · subst h
    rw [VirtualMachine.reg_setPc_same, if_pos rfl]
    push_cast
    rfl
  · rw [VirtualMachine.reg_setPc_other vm _ r h, if_neg h]

theorem VirtualMachine.registers_after_fetch (vm : VirtualMachine) (q : Register)
    (h : q ≠ Register.PC) : (vm.setPc (vm.pc + 1)).registers q = vm.registers q :=
  VirtualMachine.registers_setPc_other vm _ q h

theorem VirtualMachine.operandRead_lower (vm : VirtualMachine) (r : Register) :
    -2147483648 ≤ vm.operandRead r := by
  rw [← VirtualMachine.reg_after_fetch]
  exact VirtualMachine.reg_lower _ r

theorem VirtualMachine.operandRead_upper (vm : VirtualMachine) (r : Register) :
    vm.operandRead r < 2147483648 := by
  rw [← VirtualMachine.reg_after_fetch]
  exact VirtualMachine.reg_upper _ r

/-- Counterexample to C3 as stated. On a fresh machine, `Add PC,A,C` (destination not PC)
completes with C = 1, while the values of PC and A in the state the cycle started from
add up to 0: the handler read the program counter after `Fetch` had incremented it. -/
theorem add_reads_incremented_pc_counterexample :
    Register.C ≠ Register.PC ∧
    addPcMachine.instructions[addPcMachine.pc]? = some (.ofOpRegs .Add .PC .A .C) ∧
    (cycle addPcMachine).isRunning = true ∧
    (cycle addPcMachine).machine.reg .C = 1 ∧
    wrap32 (addPcMachine.reg .PC + addPcMachine.reg .A) = 0 := by
  decide

/-- Claim C3, amended. For every machine and registers `a`, `b`, `c`, a cycle that fetches
`Add a,b,c` (resp. `Sub`, `Mul`) completes and leaves `c` holding the exact sum (resp.
difference, product) of the two values the handler reads, reduced modulo 2^32 into
[-2^31, 2^31); the value read from a register other than PC is the one it held when the
cycle began, and the value read from PC is the already incremented counter. -/
theorem arith_cycle_wraps (vm : VirtualMachine) (a b c : Register) :
    (vm.instructions[vm.pc]? = some (.ofOpRegs .Add a b c) →
      ∃ vm' : VirtualMachine, cycle vm = .running vm' ∧
        vm'.reg c = wrap32 (vm.operandRead a + vm.operandRead b) ∧
        -2147483648 ≤ vm'.reg c ∧ vm'.reg c < 2147483648 ∧
        (vm'.reg c - (vm.operandRead a + vm.operandRead b)) % 4294967296 = 0) ∧
    (vm.instructions[vm.pc]? = some (.ofOpRegs .Sub a b c) →
      ∃ vm' : VirtualMachine, cycle vm = .running vm' ∧
        vm'.reg c = wrap32 (vm.operandRead a - vm.operandRead b) ∧
        -2147483648 ≤ vm'.reg c ∧ vm'.reg c < 2147483648 ∧
        (vm'.reg c - (vm.operandRead a - vm.operandRead b)) % 4294967296 = 0) ∧
    (vm.instructions[vm.pc]? = some (.ofOpRegs .Mul a b c) →
      ∃ vm' : VirtualMachine, cycle vm = .running vm' ∧
        vm'.reg c = wrap32 (vm.operandRead a * vm.operandRead b) ∧
        -2147483648 ≤ vm'.reg c ∧ vm'.reg c < 2147483648 ∧
        (vm'.reg c - (vm.operandRead a * vm.operandRead b)) % 4294967296 = 0) ∧
    (∀ r : Register, r ≠ Register.PC → vm.operandRead r = vm.reg r) ∧
    vm.operandRead Register.PC = wrap32 ((vm.pc : Int) + 1) := by
  refine ⟨?_, ?_, ?_, ?_, ?_⟩
  · intro hfetch
    refine ⟨Add (vm.setPc (vm.pc + 1)) a b c, ?_, ?_⟩
    · rw [cycle_of_fetch vm _ hfetch]
      simp [dispatch, Instruction.op, Instruction.operandA, Instruction.operandB,
        Instruction.operandC]
    · rw [Add, VirtualMachine.reg_setReg_same, VirtualMachine.reg_after_fetch,
        VirtualMachine.reg_after_fetch]
      exact ⟨rfl, wrap32_lower _, wrap32_upper _, wrap32_modEq _⟩
  · intro hfetch
    refine ⟨Sub (vm.setPc (vm.pc + 1)) a b c, ?_, ?_⟩
    · rw [cycle_of_fetch vm _ hfetch]
      simp [dispatch, Instruction.op, Instruction.operandA, Instruction.operandB,
        Instruction.operandC]
    · rw [Sub, VirtualMachine.reg_setReg_same, VirtualMachine.reg_after_fetch,
        VirtualMachine.reg_after_fetch]
      exact ⟨rfl, wrap32_lower _, wrap32_upper _, wrap32_modEq _⟩
  · intro hfetch
    refine ⟨Mul (vm.setPc (vm.pc + 1)) a b c, ?_, ?_⟩
    · rw [cycle_of_fetch vm _ hfetch]
      simp [dispatch, Instruction.op, Instruction.operandA, Instruction.operandB,
        Instruction.operandC]
    · rw [Mul, VirtualMachine.reg_setReg_same, VirtualMachine.reg_after_fetch,
        VirtualMachine.reg_after_fetch]
      exact ⟨rfl, wrap32_lower _, wrap32_upper _, wrap32_modEq _⟩
  · intro r hr
    simp [VirtualMachine.operandRead, hr]
  · simp [VirtualMachine.operandRead]

/-- Witness for C3: with A = 2147483647 and B = 1, `Add A,B,C` leaves C = -2147483648. -/
theorem arith_cycle_wraps_witness :
    ∃ vm' : VirtualMachine, cycle addOverflowMachine = .running vm' ∧
      vm'.reg .C = -2147483648 := by
  obtain ⟨vm', hrun, hval, _⟩ :=
    (arith_cycle_wraps addOverflowMachine .A .B .C).1 (by decide)
  exact ⟨vm', hrun, by rw [hval]; decide⟩

/-! ## Div by zero -/

theorem and_cycle_skips (vm : VirtualMachine) (a b c : Register)
    (hfetch : vm.instructions[vm.pc]? = some (.ofOpRegs .And a b c)) :
    cycle vm = .running (vm.setPc (vm.pc + 1)) := by
  rw [cycle_of_fetch vm _ hfetch]
  simp [dispatch, Instruction.op]

/-- Claim C6, at a failing input. With A = 1, B = 1 and C = 0, a cycle that fetches
`And A,B,C` completes with C still 0, although the handler `And` applied to the same
machine writes 1: the switch of `main` has no case for the opcode. -/
theorem and_cycle_leaves_destination :
    andMachine.instructions[andMachine.pc]? = some (.ofOpRegs .And .A .B .C) ∧
    andMachine.reg .A = 1 ∧ andMachine.reg .B = 1 ∧ andMachine.reg .C = 0 ∧
    (cycle andMachine).isRunning = true ∧
    (cycle andMachine).machine.reg .C = 0 ∧
    (And andMachine .A .B .C).reg .C = 1 := by
  decide

/-! ## Div -/

theorem tdiv_in_range (x y : Int) (hxl : -2147483648 ≤ x) (hxu : x < 2147483648)
    (hy : y ≠ 0) (hov : ¬ (x = -2147483648 ∧ y = -1)) :
    -2147483648 ≤ Int.tdiv x y ∧ Int.tdiv x y < 2147483648 := by
  by_cases h1 : y = 1
  · subst h1
    rw [Int.tdiv_one]
    exact ⟨hxl, hxu⟩
  by_cases h2 : y = -1
  · subst h2
    rw [Int.tdiv_neg, Int.tdiv_one]
    constructor <;> omega
  have habs : (Int.tdiv x y).natAbs = x.natAbs / y.natAbs := Int.natAbs_tdiv x y
  have hy2 : 2 ≤ y.natAbs := by omega
  have hle : x.natAbs / y.natAbs ≤ x.natAbs / 2 :=
    Nat.div_le_div_left hy2 (by decide)
  have hx : x.natAbs ≤ 2147483648 := by omega
  have hq : (Int.tdiv x y).natAbs ≤ 1073741824 := by omega
  constructor <;> omega

theorem tdiv_sign_natAbs (x y : Int) :
    Int.tdiv x y = x.sign * y.sign * ((x.natAbs / y.natAbs : Nat) : Int) := by
  have h1 : (Int.tdiv x y).natAbs = x.natAbs / y.natAbs := Int.natAbs_tdiv x y
  rcases lt_trichotomy x 0 with hx | hx | hx <;> rcases lt_trichotomy y 0 with hy | hy | hy
  · rw [Int.sign_eq_neg_one_of_neg hx, Int.sign_eq_neg_one_of_neg hy]
    have h2 : 0 ≤ Int.tdiv x y := by
      have h3 := @Int.tdiv_nonneg (-x) (-y) (by omega) (by omega)
      rw [Int.tdiv_neg, Int.neg_tdiv] at h3
      omega
    omega
  · subst hy; simp
  · rw [Int.sign_eq_neg_one_of_neg hx, Int.sign_eq_one_of_pos hy]
    have h2 : Int.tdiv x y ≤ 0 := by
      have h3 := @Int.tdiv_nonneg (-x) y (by omega) (by omega)
      rw [Int.neg_tdiv] at h3
      omega
    omega
  · subst hx; simp
  · subst hx; simp
  · subst hx; simp
  · rw [Int.sign_eq_one_of_pos hx, Int.sign_eq_neg_one_of_neg hy]
    have h2 : Int.tdiv x y ≤ 0 := Int.tdiv_nonpos (by omega) (by omega)
    omega
  · subst hy; simp
  · rw [Int.sign_eq_one_of_pos hx, Int.sign_eq_one_of_pos hy]
    have h2 : 0 ≤ Int.tdiv x y := Int.tdiv_nonneg (by omega) (by omega)
    omega

/-- Counterexample to C7 as stated. At program counter 1 with B = 2, `Div PC,B,C` has a
nonzero divisor, no overflow and a destination other than PC; the quotient of the values
PC and B hold when the cycle starts is 1 / 2 = 0, but the cycle leaves C = 1, the
quotient of the incremented counter 2 by 2. -/
theorem div_reads_incremented_pc_counterexample :
    divFromPcMachine.instructions[divFromPcMachine.pc]? = some (.ofOpRegs .Div .PC .B .C) ∧
    divFromPcMachine.reg .B ≠ 0 ∧
    ¬ (divFromPcMachine.reg .PC = -2147483648 ∧ divFromPcMachine.reg .B = -1) ∧
    Register.C ≠ Register.PC ∧
    Int.tdiv (divFromPcMachine.reg .PC) (divFromPcMachine.reg .B) = 0 ∧
    (cycle divFromPcMachine).isRunning = true ∧
    (cycle divFromPcMachine).machine.reg .C = 1 := by
  decide

/-- Claim C7, amended. For every machine in which the divisor read by the handler is not
0 and the two values read are not -2^31 and -1, a cycle that fetches `Div a,b,c`
completes and leaves `c` holding the quotient of the two values read, truncated toward
zero: its magnitude is the floor of the quotient of the magnitudes and its sign is the
product of the signs. The value read from a register other than PC is the one it held
when the cycle began; the value read from PC is the already incremented counter. -/
theorem div_cycle_truncates (vm : VirtualMachine) (a b c : Register)
    (hnz : vm.operandRead b ≠ 0)
    (hov : ¬ (vm.operandRead a = -2147483648 ∧ vm.operandRead b = -1))
    (hfetch : vm.instructions[vm.pc]? = some (.ofOpRegs .Div a b c)) :
    ∃ vm' : VirtualMachine, cycle vm = .running vm' ∧
      vm'.reg c = Int.tdiv (vm.operandRead a) (vm.operandRead b) ∧
      (vm'.reg c).natAbs = (vm.operandRead a).natAbs / (vm.operandRead b).natAbs ∧
      vm'.reg c = (vm.operandRead a).sign * (vm.operandRead b).sign *
        (((vm.operandRead a).natAbs / (vm.operandRead b).natAbs : Nat) : Int) ∧
      (∀ r : Register, r ≠ Register.PC → vm.operandRead r = vm.reg r) ∧
      vm.operandRead Register.PC = wrap32 ((vm.pc : Int) + 1) := by
  have hrange := tdiv_in_range (vm.operandRead a) (vm.operandRead b)
    (vm.operandRead_lower a) (vm.operandRead_upper a) hnz hov
  refine ⟨(vm.setPc (vm.pc + 1)).setReg c
    (Int.tdiv (vm.operandRead a) (vm.operandRead b)), ?_, ?_, ?_, ?_, ?_, ?_⟩
  · rw [cycle_of_fetch vm _ hfetch]
    simp [dispatch, Instruction.op, Instruction.operandA, Instruction.operandB,
      Instruction.operandC, Div, int32Div, hnz, hov, VirtualMachine.reg_after_fetch]
  · rw [VirtualMachine.reg_setReg_same]
    exact wrap32_of_range _ hrange.1 hrange.2
  · rw [VirtualMachine.reg_setReg_same, wrap32_of_range _ hrange.1 hrange.2]
    exact Int.natAbs_tdiv _ _
  · rw [VirtualMachine.reg_setReg_same, wrap32_of_range _ hrange.1 hrange.2]
    exact tdiv_sign_natAbs _ _
  · intro r hr
    simp [VirtualMachine.operandRead, hr]
  · simp [VirtualMachine.operandRead]

/-- Witness for C7: with A = -7 and B = 2, `Div A,B,C` leaves C = -3 (not the floor -4). -/
theorem div_cycle_truncates_witness :
    ∃ vm' : VirtualMachine, cycle divNegMachine = .running vm' ∧ vm'.reg .C = -3 := by
  obtain ⟨vm', hrun, hval, _⟩ :=
    div_cycle_truncates divNegMachine .A .B .C (by decide) (by decide) (by decide)
  exact ⟨vm', hrun, by rw [hval]; decide⟩

theorem div_by_negative_example :
    (cycle divByNegMachine).isRunning = true ∧ (cycle divByNegMachine).machine.reg .C = -3 := by
  decide

/-! ## Jump and JumpIfZero -/

/-- Claim C8. For every machine (whatever its program counter) and every `addr16` in
[0, 65535], a cycle that fetches a `Jump` built with payload `addr16` completes with the
program counter equal to `addr16` itself (also when read signed through register PC, so
never negative and not an offset from the old counter), and with every other register,
the program and the stack unchanged. -/
theorem jump_cycle_replaces_pc (vm : VirtualMachine) (r : Register) (addr16 : Nat)
    (haddr : addr16 ≤ 65535)
    (hfetch : vm.instructions[vm.pc]? = some (.ofOpRegValue .Jump r addr16)) :
    ∃ vm' : VirtualMachine, cycle vm = .running vm' ∧
      vm'.pc = addr16 ∧ vm'.reg Register.PC = (addr16 : Int) ∧
      (∀ q : Register, q ≠ Register.PC → vm'.registers q = vm.registers q) ∧
      vm'.instructions = vm.instructions ∧ vm'.stack = vm.stack := by
  have h16 : addr16 % 65536 = addr16 := Nat.mod_eq_of_lt (by omega)
  refine ⟨Jump (vm.setPc (vm.pc + 1)) addr16, ?_, ?_, ?_, ?_, rfl, rfl⟩
  · rw [cycle_of_fetch vm _ hfetch]
    simp [dispatch, Instruction.op, Instruction.uvalue, h16]
  · rw [Jump, VirtualMachine.pc_setPc]
    omega
  · rw [Jump, VirtualMachine.reg_setPc_same]
    exact wrap32_of_range _ (by omega) (by omega)
  · intro q hq
    rw [Jump, VirtualMachine.registers_setPc_other _ _ q hq,
      VirtualMachine.registers_setPc_other _ _ q hq]

/-- Witness for C8: a `Jump` to 40000, an address above 32767. -/
theorem jump_cycle_replaces_pc_witness :
    ∃ vm' : VirtualMachine, cycle jumpMachine = .running vm' ∧
      vm'.pc = 40000 ∧ vm'.reg Register.PC = 40000 ∧
      (∀ q : Register, q ≠ Register.PC → vm'.registers q = jumpMachine.registers q) ∧
      vm'.instructions = jumpMachine.instructions ∧ vm'.stack = jumpMachine.stack :=
  jump_cycle_replaces_pc jumpMachine .A 40000 (by decide) (by decide)

theorem lastIndexJumpMachine_fetch :
    lastIndexJumpMachine.instructions[lastIndexJumpMachine.pc]? =
      some (.ofOpRegValue .JumpIfZero .A 7) := by
  have hpc : lastIndexJumpMachine.pc = 4294967295 := by decide
  rw [hpc]
  exact List.getElem?_replicate_of_lt (by decide)

/-- Counterexample to C9 as stated. With a program of 2^32 instructions, the program
counter at i = 2^32 - 1 and A = 1, the fetched `JumpIfZero A,7` is not taken, and the
program counter is left at 0, not at i + 1: the increment in `Fetch` is on a `uint32_t`. -/
theorem jumpIfZero_wraps_counterexample :
    lastIndexJumpMachine.pc = 4294967295 ∧
    lastIndexJumpMachine.instructions[lastIndexJumpMachine.pc]? =
      some (.ofOpRegValue .JumpIfZero .A 7) ∧
    Register.A ≠ Register.PC ∧
    lastIndexJumpMachine.reg .A ≠ 0 ∧
    (cycle lastIndexJumpMachine).isRunning = true ∧
    (cycle lastIndexJumpMachine).machine.pc = 0 ∧
    (cycle lastIndexJumpMachine).machine.pc ≠ lastIndexJumpMachine.pc + 1 := by
  have hpc : lastIndexJumpMachine.pc = 4294967295 := by decide
  have hA : lastIndexJumpMachine.reg .A ≠ 0 := by decide
  have hA' : (lastIndexJumpMachine.setPc (lastIndexJumpMachine.pc + 1)).reg .A ≠ 0 := by
    rw [VirtualMachine.reg_setPc_other _ _ _ (by decide)]
    exact hA
  have hc : cycle lastIndexJumpMachine =
      .running (lastIndexJumpMachine.setPc (lastIndexJumpMachine.pc + 1)) := by
    rw [cycle_of_fetch _ _ lastIndexJumpMachine_fetch]
    simp only [dispatch, Instruction.op, Instruction.operandA, Instruction.uvalue,
      JumpIfZero, if_neg hA']
  have hnew : (cycle lastIndexJumpMachine).machine.pc = 0 := by
    rw [hc, Outcome.machine, VirtualMachine.pc_setPc, hpc]
  refine ⟨hpc, lastIndexJumpMachine_fetch, by decide, hA, ?_, hnew, ?_⟩
  · rw [hc]
    rfl
  · rw [hnew, hpc]
    decide

/-- Claim C9, amended. For every machine with program counter `i`, every register `a`
other than PC and every `addr16` in [0, 65535], a cycle that fetches
`JumpIfZero a,addr16` completes with the program counter at `addr16` if `a` holds 0 and
at `i + 1` reduced modulo 2^32 otherwise (which is `i + 1` unless `i = 2^32 - 1`); in
both cases every register other than PC, the program and the stack are unchanged. -/
theorem jumpIfZero_cycle (vm : VirtualMachine) (a : Register) (addr16 : Nat)
    (ha : a ≠ Register.PC) (haddr : addr16 ≤ 65535)
    (hfetch : vm.instructions[vm.pc]? = some (.ofOpRegValue .JumpIfZero a addr16)) :
    ∃ vm' : VirtualMachine, cycle vm = .running vm' ∧
      vm'.pc = (if vm.reg a = 0 then addr16 else (vm.pc + 1) % 4294967296) ∧
      (vm.reg a ≠ 0 → vm.pc + 1 < 4294967296 → vm'.pc = vm.pc + 1) ∧
      (∀ q : Register, q ≠ Register.PC → vm'.registers q = vm.registers q) ∧
      vm'.instructions = vm.instructions ∧ vm'.stack = vm.stack := by
  have h16 : addr16 % 65536 = addr16 := Nat.mod_eq_of_lt (by omega)
  have hread : (vm.setPc (vm.pc + 1)).reg a = vm.reg a :=
    VirtualMachine.reg_setPc_other vm _ a ha
  have hc : cycle vm = .running (JumpIfZero (vm.setPc (vm.pc + 1)) a addr16) := by
    rw [cycle_of_fetch vm _ hfetch]
    simp [dispatch, Instruction.op, Instruction.operandA, Instruction.uvalue, h16]
  have hpc : (JumpIfZero (vm.setPc (vm.pc + 1)) a addr16).pc =
      (if vm.reg a = 0 then addr16 else (vm.pc + 1) % 4294967296) := by
    unfold JumpIfZero
    rw [hread]
    by_cases hz : vm.reg a = 0
    · rw [if_pos hz, if_pos hz, VirtualMachine.pc_setPc]
      omega
    · rw [if_neg hz, if_neg hz, VirtualMachine.pc_setPc]
  refine ⟨_, hc, hpc, ?_, ?_, ?_, ?_⟩
  · intro hz hlt
    rw [hpc, if_neg hz]
    exact Nat.mod_eq_of_lt hlt
  · intro q hq
    unfold JumpIfZero
    split
    · rw [VirtualMachine.registers_setPc_other _ _ q hq,
        VirtualMachine.registers_setPc_other _ _ q hq]
    · rw [VirtualMachine.registers_setPc_other _ _ q hq]
  · unfold JumpIfZero
    split <;> rfl
  · unfold JumpIfZero
    split <;> rfl

/-- Witness for C9: A = 0 and `JumpIfZero A,9`, which is taken. -/
theorem jumpIfZero_cycle_witness :
    ∃ vm' : VirtualMachine, cycle jumpIfZeroMachine = .running vm' ∧ vm'.pc = 9 := by
  obtain ⟨vm', hrun, hpc, _⟩ :=
    jumpIfZero_cycle jumpIfZeroMachine .A 9 (by decide) (by decide) (by decide)
  exact ⟨vm', hrun, by rw [hpc]; decide⟩

/-! ## Halt -/

theorem lastIndexHaltMachine_fetch :
    lastIndexHaltMachine.instructions[lastIndexHaltMachine.pc]? = some (.ofOp .Halt) := by
  have hpc : lastIndexHaltMachine.pc = 4294967295 := by decide
  rw [hpc]
  exact List.getElem?_replicate_of_lt (by decide)

/-- Counterexample to C10 as stated. With a program of 2^32 instructions and the program
counter at i = 2^32 - 1, in bounds, the fetched `Halt` ends the run with the program
counter left at 0, not at i + 1. -/
theorem halt_wraps_counterexample :
    lastIndexHaltMachine.pc = 4294967295 ∧
    lastIndexHaltMachine.pc < lastIndexHaltMachine.instructions.length ∧
    lastIndexHaltMachine.instructions[lastIndexHaltMachine.pc]? = some (.ofOp .Halt) ∧
    (cycle lastIndexHaltMachine).machine.pc = 0 ∧
    (cycle lastIndexHaltMachine).machine.pc ≠ lastIndexHaltMachine.pc + 1 := by
  have hpc : lastIndexHaltMachine.pc = 4294967295 := by decide
  have hlen : lastIndexHaltMachine.instructions.length = 4294967296 :=
    List.length_replicate _ _
  have hc : cycle lastIndexHaltMachine =
      .halted (lastIndexHaltMachine.setPc (lastIndexHaltMachine.pc + 1)) := by
    rw [cycle_of_fetch _ _ lastIndexHaltMachine_fetch]
    rfl
  have hnew : (cycle lastIndexHaltMachine).machine.pc = 0 := by
    rw [hc, Outcome.machine, VirtualMachine.pc_setPc, hpc]
  refine ⟨hpc, ?_, lastIndexHaltMachine_fetch, hnew, ?_⟩
  · rw [hpc, hlen]
    decide
  · rw [hnew, hpc]
    decide

/-- Claim C10, amended. For every machine with the program counter `i` in bounds whose
fetched instruction has opcode `Halt`, the cycle leaves the loop through the `Halt` case
(the success result), so the run ends there for every amount of fuel and fetches index
`i` only; every register other than PC, the program and the stack are unchanged, and the
program counter is left at `i + 1` reduced modulo 2^32 (`i + 1` unless `i = 2^32 - 1`). -/
theorem halt_cycle_terminates (vm : VirtualMachine) (instruction : Instruction)
    (hop : instruction.op = OpCode.Halt)
    (hfetch : vm.instructions[vm.pc]? = some instruction) :
    ∃ vm' : VirtualMachine, cycle vm = .halted vm' ∧
      (∀ fuel : Nat, run (fuel + 1) vm = .halted vm') ∧
      (∀ fuel : Nat, fetched (fuel + 1) vm = [vm.pc]) ∧
      (∀ q : Register, q ≠ Register.PC → vm'.registers q = vm.registers q) ∧
      vm'.instructions = vm.instructions ∧ vm'.stack = vm.stack ∧
      vm'.pc = (vm.pc + 1) % 4294967296 ∧
      (vm.pc + 1 < 4294967296 → vm'.pc = vm.pc + 1) := by
  have hc : cycle vm = .halted (vm.setPc (vm.pc + 1)) := by
    rw [cycle_of_fetch vm _ hfetch]
    simp [dispatch, hop]
  refine ⟨_, hc, ?_, ?_, ?_, rfl, rfl, VirtualMachine.pc_setPc vm _, ?_⟩
  · intro fuel
    simp [run, hc]
  · intro fuel
    simp [fetched, hc]
  · intro q hq
    exact VirtualMachine.registers_setPc_other vm _ q hq
  · intro hlt
    rw [VirtualMachine.pc_setPc]
    exact Nat.mod_eq_of_lt hlt

/-- Witness for C10: `Halt` fetched at program counter 1 with A = 1, B = 2, C = 3. -/
theorem halt_cycle_terminates_witness :
    ∃ vm' : VirtualMachine, cycle haltMachine = .halted vm' ∧
      vm'.pc = 2 ∧ vm'.reg .A = 1 ∧ vm'.reg .B = 2 ∧ vm'.reg .C = 3 := by
  obtain ⟨vm', hc, _, _, hframe, _, _, hpc, _⟩ :=
    halt_cycle_terminates haltMachine (.ofOp .Halt) rfl (by decide)
  refine ⟨vm', hc, by rw [hpc]; decide, ?_, ?_, ?_⟩
  · rw [VirtualMachine.reg, hframe .A (by decide)]; decide
  · rw [VirtualMachine.reg, hframe .B (by decide)]; decide
  · rw [VirtualMachine.reg, hframe .C (by decide)]; decide

/-! ## Store -/

theorem lastIndexStoreMachine_fetch :
    lastIndexStoreMachine.instructions[lastIndexStoreMachine.pc]? = some (.ofOp .Store) := by
  have hpc : lastIndexStoreMachine.pc = 4294967295 := by decide
  rw [hpc]
  exact List.getElem?_replicate_of_lt (by decide)

/-- Counterexample to C11 as stated. With a program of 2^32 instructions and the program
counter at i = 2^32 - 1, in bounds, a fetched instruction of opcode `Store` leaves the
loop running with the program counter at 0, not at i + 1. -/
theorem store_wraps_counterexample :
    lastIndexStoreMachine.pc = 4294967295 ∧
    lastIndexStoreMachine.pc < lastIndexStoreMachine.instructions.length ∧
    lastIndexStoreMachine.instructions[lastIndexStoreMachine.pc]? = some (.ofOp .Store) ∧
    (cycle lastIndexStoreMachine).isRunning = true ∧
    (cycle lastIndexStoreMachine).machine.pc = 0 ∧
    (cycle lastIndexStoreMachine).machine.pc ≠ lastIndexStoreMachine.pc + 1 := by
  have hpc : lastIndexStoreMachine.pc = 4294967295 := by decide
  have hlen : lastIndexStoreMachine.instructions.length = 4294967296 :=
    List.length_replicate _ _
  have hc : cycle lastIndexStoreMachine =
      .running (lastIndexStoreMachine.setPc (lastIndexStoreMachine.pc + 1)) := by
    rw [cycle_of_fetch _ _ lastIndexStoreMachine_fetch]
    rfl
  have hnew : (cycle lastIndexStoreMachine).machine.pc = 0 := by
    rw [hc, Outcome.machine, VirtualMachine.pc_setPc, hpc]
  refine ⟨hpc, ?_, lastIndexStoreMachine_fetch, ?_, hnew, ?_⟩
  · rw [hpc, hlen]
    decide
  · rw [hc]
    rfl
  · rw [hnew, hpc]
    decide

/-- Claim C11, amended. For every machine with the program counter `i` in bounds whose
fetched instruction has opcode `Store`, whatever its operands, the cycle completes
without error and the run goes on; every register other than PC, the program and the
stack are unchanged, and the program counter becomes `i + 1` reduced modulo 2^32
(`i + 1` unless `i = 2^32 - 1`). -/
theorem store_cycle_is_noop (vm : VirtualMachine) (instruction : Instruction)
    (hop : instruction.op = OpCode.Store)
    (hfetch : vm.instructions[vm.pc]? = some instruction) :
    ∃ vm' : VirtualMachine, cycle vm = .running vm' ∧
      (∀ fuel : Nat, run (fuel + 1) vm = run fuel vm') ∧
      (∀ q : Register, q ≠ Register.PC → vm'.registers q = vm.registers q) ∧
      vm'.instructions = vm.instructions ∧ vm'.stack = vm.stack ∧
      vm'.pc = (vm.pc + 1) % 4294967296 ∧
      (vm.pc + 1 < 4294967296 → vm'.pc = vm.pc + 1) := by
  have hc : cycle vm = .running (vm.setPc (vm.pc + 1)) := by
    rw [cycle_of_fetch vm _ hfetch]
    simp [dispatch, hop]
  refine ⟨_, hc, ?_, ?_, rfl, rfl, VirtualMachine.pc_setPc vm _, ?_⟩
  · intro fuel
    simp [run, hc]
  · intro q hq
    exact VirtualMachine.registers_setPc_other vm _ q hq
  · intro hlt
    rw [VirtualMachine.pc_setPc]
    exact Nat.mod_eq_of_lt hlt

/-- Witness for C11: opcode `Store` with three register operands, fetched at program
counter 1 with A = 1, B = 2, C = 3. -/
theorem store_cycle_is_noop_witness :
    ∃ vm' : VirtualMachine, cycle storeMachine = .running vm' ∧
      vm'.pc = 2 ∧ vm'.reg .A = 1 ∧ vm'.reg .B = 2 ∧ vm'.reg .C = 3 := by
  obtain ⟨vm', hc, _, hframe, _, _, hpc, _⟩ :=
    store_cycle_is_noop storeMachine (.ofOpRegs .Store .A .B .C) rfl (by decide)
  refine ⟨vm', hc, by rw [hpc]; decide, ?_, ?_, ?_⟩
  · rw [VirtualMachine.reg, hframe .A (by decide)]; decide
  · rw [VirtualMachine.reg, hframe .B (by decide)]; decide
  · rw [VirtualMachine.reg, hframe .C (by decide)]; decide

/-! ## Handlers that name PC -/

theorem VirtualMachine.pc_setReg_same (vm : VirtualMachine) (x : Int)
    (hlo : 0 ≤ x) (hhi : x < 4294967296) :
    ((vm.setReg Register.PC x).pc : Int) = x := by
  simp only [VirtualMachine.setReg, VirtualMachine.pc, Function.update_same, Word.toUInt32,
    Word.ofInt]
  omega

/-- Claim C12. The fetch increment comes before the handler and a handler naming PC
overrides it. For every machine with program counter `i`, `i + 2 < 2^31`, a cycle that
fetches `Inc PC` completes with the program counter at `i + 2`, the handler having read
`i + 1`; and for every `v` in [0, 32767] a cycle that fetches `Load PC,v` completes with
the program counter at `v`, so that the next fetch reads the instruction at index `v`. -/
theorem pc_named_by_handler (vm : VirtualMachine) :
    (vm.pc + 2 < 2147483648 →
      vm.instructions[vm.pc]? = some (.ofOpReg .Inc .PC) →
      ∃ vm' : VirtualMachine, cycle vm = .running vm' ∧ vm'.pc = vm.pc + 2 ∧
        vm.operandRead Register.PC = (vm.pc : Int) + 1) ∧
    (∀ v : Nat, v ≤ 32767 →
      vm.instructions[vm.pc]? = some (.ofOpRegValue .Load .PC v) →
      ∃ vm' : VirtualMachine, cycle vm = .running vm' ∧ vm'.pc = v ∧
        (Fetch vm').1 = (vm.instructions[v]?).getD (vm.past v) ∧
        (∀ next : Instruction, vm.instructions[v]? = some next → (Fetch vm').1 = next)) := by
  constructor
  · intro hlt hfetch
    have hread : vm.operandRead Register.PC = (vm.pc : Int) + 1 := by
      rw [VirtualMachine.operandRead, if_pos rfl]
      exact wrap32_of_range _ (by omega) (by omega)
    refine ⟨Inc (vm.setPc (vm.pc + 1)) .PC, ?_, ?_, hread⟩
    · rw [cycle_of_fetch vm _ hfetch]
      simp [dispatch, Instruction.op, Instruction.operandA]
    · have h := VirtualMachine.pc_setReg_same (vm.setPc (vm.pc + 1))
        ((vm.setPc (vm.pc + 1)).reg Register.PC + 1)
      rw [VirtualMachine.reg_after_fetch, hread] at h
      have h2 := h (by omega) (by omega)
      rw [Inc, VirtualMachine.reg_after_fetch, hread]
      omega
  · intro v hv hfetch
    have h16 : toInt16 v = (v : Int) := by
      unfold toInt16
      have h1 : v % 65536 = v := Nat.mod_eq_of_lt (by omega)
      rw [h1, if_pos (by omega)]
    have hpc : (Load (vm.setPc (vm.pc + 1)) .PC (v : Int)).pc = v := by
      have h := VirtualMachine.pc_setReg_same (vm.setPc (vm.pc + 1)) (v : Int)
        (by omega) (by omega)
      rw [Load]
      omega
    have hnext : (Fetch (Load (vm.setPc (vm.pc + 1)) .PC (v : Int))).1 =
        (vm.instructions[v]?).getD (vm.past v) := by
      simp only [Fetch]
      rw [hpc]
      rfl
    refine ⟨Load (vm.setPc (vm.pc + 1)) .PC (v : Int), ?_, hpc, hnext, ?_⟩
    · rw [cycle_of_fetch vm _ hfetch]
      simp [dispatch, Instruction.op, Instruction.operandA, Instruction.value, h16]
    · intro next hn
      rw [hnext, hn]
      rfl

/-- Witness for C12: `Inc PC` fetched at program counter 5 leaves it at 7. -/
theorem pc_named_by_handler_witness :
    ∃ vm' : VirtualMachine, cycle incPcMachine = .running vm' ∧ vm'.pc = 7 := by
  obtain ⟨vm', hc, hpc, _⟩ :=
    (pc_named_by_handler incPcMachine).1 (by decide) (by decide)
  exact ⟨vm', hc, by rw [hpc]; decide⟩

theorem load_pc_example :
    (cycle loadPcMachine).isRunning = true ∧ (cycle loadPcMachine).machine.pc = 3 ∧
    (Fetch (cycle loadPcMachine).machine).1 = .ofOpReg .Inc .A := by
  decide

/-! ## Straight-line runs -/

theorem run_succ_of_running (n : Nat) (vm w : VirtualMachine) (hc : cycle vm = .running w) :
    run (n + 1) vm = run n w := by
  simp only [run, hc]

theorem run_succ_running_inv (n : Nat) (vm vm' : VirtualMachine)
    (h : run (n + 1) vm = .running vm') :
    ∃ w : VirtualMachine, cycle vm = .running w ∧ run n w = .running vm' := by
  simp only [run] at h
  cases hc : cycle vm with
  | running w => rw [hc] at h; exact ⟨w, rfl, h⟩
  | halted w => rw [hc] at h; cases h
  | undefined u w => rw [hc] at h; cases h

theorem run_prefix_running (n k : Nat) (vm vm' : VirtualMachine)
    (h : run (k + n) vm = .running vm') :
    ∃ w : VirtualMachine, run k vm = .running w := by
  induction k generalizing vm with
  | zero => exact ⟨vm, rfl⟩
  | succ m ih =>
    rw [Nat.add_right_comm] at h
    obtain ⟨w, hc, hw⟩ := run_succ_running_inv _ vm vm' h
    rw [run_succ_of_running m vm w hc]
    exact ih w hw

theorem inc_cycle (vm : VirtualMachine) (a : Register)
    (hfetch : vm.instructions[vm.pc]? = some (.ofOpReg .Inc a)) :
    cycle vm = .running (Inc (vm.setPc (vm.pc + 1)) a) := by
  rw [cycle_of_fetch vm _ hfetch]
  simp [dispatch, Instruction.op, Instruction.operandA]

theorem dec_cycle (vm : VirtualMachine) (a : Register)
    (hfetch : vm.instructions[vm.pc]? = some (.ofOpReg .Dec a)) :
    cycle vm = .running (Dec (vm.setPc (vm.pc + 1)) a) := by
  rw [cycle_of_fetch vm _ hfetch]
  simp [dispatch, Instruction.op, Instruction.operandA]

theorem wrap32_dec_inc (x : Int) (hlo : -2147483648 ≤ x) (hhi : x < 2147483648) :
    wrap32 (wrap32 (x + 1) - 1) = x := by
  unfold wrap32
  omega

/-- Claim C14. For every machine and register `a` other than PC, a cycle that fetches
`Inc a` completes and leaves `a` holding its old value plus 1 reduced modulo 2^32 into
[-2^31, 2^31) (2147483647 becomes -2147483648); a cycle that fetches `Dec a` leaves the
old value minus 1 reduced likewise (-2147483648 becomes 2147483647); and when the cycle
after `Inc a` fetches `Dec a`, `a` holds its original value again, whatever it was. -/
theorem inc_dec_cycle_wraps (vm : VirtualMachine) (a : Register) (ha : a ≠ Register.PC) :
    (vm.instructions[vm.pc]? = some (.ofOpReg .Inc a) →
      ∃ vm' : VirtualMachine, cycle vm = .running vm' ∧
        vm'.reg a = wrap32 (vm.reg a + 1) ∧
        -2147483648 ≤ vm'.reg a ∧ vm'.reg a < 2147483648 ∧
        (vm'.reg a - (vm.reg a + 1)) % 4294967296 = 0 ∧
        (vm.reg a = 2147483647 → vm'.reg a = -2147483648) ∧
        (vm'.instructions[vm'.pc]? = some (.ofOpReg .Dec a) →
          ∃ vm'' : VirtualMachine, cycle vm' = .running vm'' ∧ vm''.reg a = vm.reg a)) ∧
    (vm.instructions[vm.pc]? = some (.ofOpReg .Dec a) →
      ∃ vm' : VirtualMachine, cycle vm = .running vm' ∧
        vm'.reg a = wrap32 (vm.reg a - 1) ∧
        -2147483648 ≤ vm'.reg a ∧ vm'.reg a < 2147483648 ∧
        (vm'.reg a - (vm.reg a - 1)) % 4294967296 = 0 ∧
        (vm.reg a = -2147483648 → vm'.reg a = 2147483647)) := by
  have hinc : ∀ w : VirtualMachine,
      (Inc (w.setPc (w.pc + 1)) a).reg a = wrap32 (w.reg a + 1) := by
    intro w
    rw [Inc, VirtualMachine.reg_setReg_same, VirtualMachine.reg_setPc_other w _ a ha]
  have hdec : ∀ w : VirtualMachine,
      (Dec (w.setPc (w.pc + 1)) a).reg a = wrap32 (w.reg a - 1) := by
    intro w
    rw [Dec, VirtualMachine.reg_setReg_same, VirtualMachine.reg_setPc_other w _ a ha]
  constructor
  · intro hfetch
    refine ⟨_, inc_cycle vm a hfetch, hinc vm, ?_, ?_, ?_, ?_, ?_⟩
    · rw [hinc]; exact wrap32_lower _
    · rw [hinc]; exact wrap32_upper _
    · rw [hinc]; exact wrap32_modEq _
    · intro h
      rw [hinc, h]
      decide
    · intro hfetch2
      refine ⟨_, dec_cycle _ a hfetch2, ?_⟩
      rw [hdec, hinc]
      exact wrap32_dec_inc _ (vm.reg_lower a) (vm.reg_upper a)
  · intro hfetch
    refine ⟨_, dec_cycle vm a hfetch, hdec vm, ?_, ?_, ?_, ?_⟩
    · rw [hdec]; exact wrap32_lower _
    · rw [hdec]; exact wrap32_upper _
    · rw [hdec]; exact wrap32_modEq _
    · intro h
      rw [hdec, h]
      decide

/-- Witness for C14: A = 2147483647, `Inc A` then `Dec A`. -/
theorem inc_dec_cycle_wraps_witness :
    ∃ vm' vm'' : VirtualMachine, cycle incDecMachine = .running vm' ∧
      vm'.reg .A = -2147483648 ∧ cycle vm' = .running vm'' ∧ vm''.reg .A = 2147483647 := by
  obtain ⟨vm', hc, hval, _, _, _, hmax, hback⟩ :=
    (inc_dec_cycle_wraps incDecMachine .A (by decide)).1 (by decide)
  have hfetch2 : vm'.instructions[vm'.pc]? = some (.ofOpReg .Dec .A) := by
    have hvm : vm' = (cycle incDecMachine).machine := by rw [hc]; rfl
    rw [hvm]
    decide
  obtain ⟨vm'', hc2, hval2⟩ := hback hfetch2
  exact ⟨vm', vm'', hc, hmax (by decide), hc2, by rw [hval2]; decide⟩

theorem dec_min_example :
    (cycle decMinMachine).isRunning = true ∧
    (cycle decMinMachine).machine.reg .A = 2147483647 := by
  decide

/-! ## The instruction record -/

/-- Claim C15. For every `v` in [0, 65535] and every opcode and register, the instruction
built from (opcode, register, `v`) reads back `uvalue = v`, and `value = v` when
`v < 32768` and `value = v - 65536` otherwise: one 16-bit pattern with two readings. All
four constructors accept every opcode with every operand choice and keep the opcode and
the operands given. -/
theorem instruction_payload_readings (op : OpCode) (r b c : Register) (v : Nat)
    (hv : v ≤ 65535) :
    (Instruction.ofOpRegValue op r v).uvalue = some v ∧
    (Instruction.ofOpRegValue op r v).value =
      some (if v < 32768 then (v : Int) else (v : Int) - 65536) ∧
    (Instruction.ofOpRegValue op r v).op = op ∧
    (Instruction.ofOpRegValue op r v).operandA = some r ∧
    (Instruction.ofOp op).op = op ∧
    (Instruction.ofOpReg op r).op = op ∧
    (Instruction.ofOpReg op r).operandA = some r ∧
    (Instruction.ofOpRegs op r b c).op = op ∧
    (Instruction.ofOpRegs op r b c).operandA = some r ∧
    (Instruction.ofOpRegs op r b c).operandB = some b ∧
    (Instruction.ofOpRegs op r b c).operandC = some c := by
  have h1 : v % 65536 = v := Nat.mod_eq_of_lt (by omega)
  refine ⟨?_, ?_, rfl, rfl, rfl, rfl, rfl, rfl, rfl, rfl, rfl⟩
  · simp only [Instruction.uvalue, h1]
  · simp only [Instruction.value, toInt16, h1]

/-- Witness for C15: the payload 65531 reads 65531 unsigned and -5 signed, here on an
`Add` built with a single register and a payload. -/
theorem instruction_payload_readings_witness :
    (Instruction.ofOpRegValue .Add .A 65531).uvalue = some 65531 ∧
    (Instruction.ofOpRegValue .Add .A 65531).value = some (-5) := by
  obtain ⟨h1, h2, _⟩ := instruction_payload_readings .Add .A .B .C 65531 (by decide)
  exact ⟨h1, by rw [h2]; decide⟩

/-! ## The program store and the stack -/

theorem cycle_vectors (vm : VirtualMachine) :
    (cycle vm).machine.instructions = vm.instructions ∧
    (cycle vm).machine.stack = vm.stack := by
  cases hf : vm.instructions[vm.pc]? with
  | none =>
    rw [cycle_past_end vm hf]
    exact dispatch_vectors _ _
  | some instruction =>
    rw [cycle_of_fetch vm _ hf]
    exact dispatch_vectors _ instruction

theorem run_vectors (n : Nat) (vm : VirtualMachine) :
    (run n vm).machine.instructions = vm.instructions ∧
    (run n vm).machine.stack = vm.stack := by
  induction n generalizing vm with
  | zero => exact ⟨rfl, rfl⟩
  | succ m ih =>
    have hv := cycle_vectors vm
    simp only [run]
    cases hc : cycle vm with
    | running w =>
      rw [hc] at hv
      simp only
      obtain ⟨h1, h2⟩ := ih w
      exact ⟨h1.trans hv.1, h2.trans hv.2⟩
    | halted w => rw [hc] at hv; exact hv
    | undefined u w => rw [hc] at hv; exact hv

/-- Claim C16. Every cycle, whatever instruction it fetches and however it ends, leaves
the instruction sequence (hence its length) and the stack exactly as they were; and in
every state a run reaches from a fresh machine, whatever the program, the stack is
empty and the program is the one installed. -/
theorem cycle_keeps_program_and_stack :
    (∀ vm : VirtualMachine,
      (cycle vm).machine.instructions = vm.instructions ∧
      (cycle vm).machine.instructions.length = vm.instructions.length ∧
      (cycle vm).machine.stack = vm.stack) ∧
    (∀ (program : List Instruction) (n : Nat),
      (run n (freshMachine program)).machine.stack = [] ∧
      (run n (freshMachine program)).machine.instructions = program) := by
  constructor
  · intro vm
    obtain ⟨h1, h2⟩ := cycle_vectors vm
    exact ⟨h1, by rw [h1], h2⟩
  · intro program n
    obtain ⟨h1, h2⟩ := run_vectors n (freshMachine program)
    exact ⟨h2, h1⟩

/-! ## The handler And -/

/-- Claim C17. The handler `And`, applied to any machine and registers `a`, `b`, `c`,
leaves `c` holding 1 exactly when both `a` and `b` held a nonzero value and 0 when
either held 0, and no other register changes; with A = -5 and B = 2 it writes 1, and
with A = 1 and B = 2 it writes 1 (their bitwise conjunctions are 2 and 0); with a zero
on either side, or both, it writes 0 over a previous 7. -/
theorem and_handler_is_logical :
    (∀ (vm : VirtualMachine) (a b c : Register),
      (And vm a b c).reg c = (if vm.reg a ≠ 0 ∧ vm.reg b ≠ 0 then 1 else 0) ∧
      ((And vm a b c).reg c = 1 ↔ (vm.reg a ≠ 0 ∧ vm.reg b ≠ 0)) ∧
      ((And vm a b c).reg c = 0 ↔ (vm.reg a = 0 ∨ vm.reg b = 0)) ∧
      (∀ q : Register, q ≠ c → (And vm a b c).registers q = vm.registers q)) ∧
    (And (machineWith [] 0 (-5) 2 0) .A .B .C).reg .C = 1 ∧
    (And (machineWith [] 0 1 2 0) .A .B .C).reg .C = 1 ∧
    (And (machineWith [] 0 5 (-2) 0) .A .B .C).reg .C = 1 ∧
    (And (machineWith [] 0 (-5) (-2) 0) .A .B .C).reg .C = 1 ∧
    (And (machineWith [] 0 0 2 7) .A .B .C).reg .C = 0 ∧
    (And (machineWith [] 0 (-5) 0 7) .A .B .C).reg .C = 0 ∧
    (And (machineWith [] 0 0 0 7) .A .B .C).reg .C = 0 := by
  refine ⟨?_, by decide, by decide, by decide, by decide, by decide, by decide, by decide⟩
  intro vm a b c
  have hval : (And vm a b c).reg c = (if vm.reg a ≠ 0 ∧ vm.reg b ≠ 0 then 1 else 0) := by
    rw [And, VirtualMachine.reg_setReg_same]
    split <;> decide
  refine ⟨hval, ?_, ?_, ?_⟩
  · rw [hval]
    by_cases h : vm.reg a ≠ 0 ∧ vm.reg b ≠ 0
    · simp [h]
    · simp [h]
  · rw [hval]
    by_cases h : vm.reg a ≠ 0 ∧ vm.reg b ≠ 0
    · simp [h]
    · simp only [if_neg h, true_iff]
      by_cases h1 : vm.reg a = 0
      · exact Or.inl h1
      · by_cases h2 : vm.reg b = 0
        · exact Or.inr h2
        · exact absurd ⟨h1, h2⟩ h
  · intro q hq
    exact VirtualMachine.registers_setReg_other vm c q _ hq

/-! ## What a cycle writes -/

theorem dispatch_frame (vm : VirtualMachine) (instruction : Instruction) (q : Register)
    (hq : q ≠ Register.PC) (hd : instruction.destination ≠ some q) :
    (dispatch vm instruction).machine.registers q = vm.registers q := by
  unfold dispatch
  unfold Instruction.destination at hd
  split
  all_goals rename_i hop
  all_goals simp only [hop] at hd
  · split
    · rename_i a v ha hv
      have hne : q ≠ a := fun h => hd (by rw [ha, h])
      exact VirtualMachine.registers_setReg_other vm a q _ hne
    · rfl
  · split
    · rename_i a ha
      have hne : q ≠ a := fun h => hd (by rw [ha, h])
      exact VirtualMachine.registers_setReg_other vm a q _ hne
    · rfl
  · split
    · rename_i a ha
      have hne : q ≠ a := fun h => hd (by rw [ha, h])
      exact VirtualMachine.registers_setReg_other vm a q _ hne
    · rfl
  · split
    · rename_i a b c ha hb hc
      have hne : q ≠ c := fun h => hd (by rw [hc, h])
      exact VirtualMachine.registers_setReg_other vm c q _ hne
    · rfl
  · split
    · rename_i a b c ha hb hc
      have hne : q ≠ c := fun h => hd (by rw [hc, h])
      exact VirtualMachine.registers_setReg_other vm c q _ hne
    · rfl
  · split
    · rename_i a b c ha hb hc
      have hne : q ≠ c := fun h => hd (by rw [hc, h])
      exact VirtualMachine.registers_setReg_other vm c q _ hne
    · rfl
  · split
    · rename_i a b c ha hb hc
      have hne : q ≠ c := fun h => hd (by rw [hc, h])
      split
      · rename_i w hw
        have hw2 := Div_eq_some _ _ _ _ _ hw
        subst hw2
        exact VirtualMachine.registers_setReg_other vm c q _ hne
      · rfl
    · rfl
  · split
    · exact VirtualMachine.registers_setPc_other vm _ q hq
    · rfl
  · split
    · simp only [Outcome.machine, JumpIfZero]
      split
      · exact VirtualMachine.registers_setPc_other vm _ q hq
      · rfl
    · rfl
  · rfl
  · rfl
  · rfl

theorem add_cycle (vm : VirtualMachine) (a b c : Register)
    (hfetch : vm.instructions[vm.pc]? = some (.ofOpRegs .Add a b c)) :
    cycle vm = .running (Add (vm.setPc (vm.pc + 1)) a b c) := by
  rw [cycle_of_fetch vm _ hfetch]
  simp [dispatch, Instruction.op, Instruction.operandA, Instruction.operandB,
    Instruction.operandC]

/-- Counterexample to C18 as stated. With A = 2147483647 and B = 1, a cycle that fetches
`Add A,B,A` leaves A = -2147483648, which is not the sum 2147483648 of the old values:
the sources were read before the write, but the sum is stored in 32 bits. -/
theorem add_in_place_overflow_counterexample :
    addInPlaceOverflowMachine.instructions[addInPlaceOverflowMachine.pc]? =
      some (.ofOpRegs .Add .A .B .A) ∧
    addInPlaceOverflowMachine.reg .A = 2147483647 ∧
    addInPlaceOverflowMachine.reg .B = 1 ∧
    (cycle addInPlaceOverflowMachine).isRunning = true ∧
    (cycle addInPlaceOverflowMachine).machine.reg .A = -2147483648 ∧
    (cycle addInPlaceOverflowMachine).machine.reg .A ≠
      addInPlaceOverflowMachine.reg .A + addInPlaceOverflowMachine.reg .B := by
  decide

/-- Claim C18, amended. A cycle writes at most the program counter and the destination
register of the instruction it fetches (`operandA` for `Load`, `Inc`, `Dec`; `operandC`
for `Add`, `Sub`, `Mul`, `Div`): whenever that destination member is determined, every
register other than PC and the destination holds after the cycle, however it ends, what
it held before; for the other opcodes only PC can change. Both sources are read before
the destination is written: `Add a,b,a` leaves `a` holding the sum of the values read
from `a` and `b`, which for `a`, `b` other than PC are their old values, reduced modulo
2^32 into [-2^31, 2^31); it is their exact sum when that fits in 32 bits. -/
theorem cycle_writes_pc_and_destination (vm : VirtualMachine) (instruction : Instruction)
    (hfetch : vm.instructions[vm.pc]? = some instruction)
    (hdest : instruction.op.writesRegister = true →
      ∃ d : Register, instruction.destination = some d) :
    (∀ q : Register, q ≠ Register.PC → instruction.destination ≠ some q →
      (cycle vm).machine.registers q = vm.registers q ∧
      (cycle vm).machine.reg q = vm.reg q) ∧
    (∀ (r : Register) (v : Nat),
      (Instruction.ofOpRegValue .Load r v).destination = some r ∧
      (Instruction.ofOpReg .Inc r).destination = some r ∧
      (Instruction.ofOpReg .Dec r).destination = some r) ∧
    (∀ a b c : Register,
      (Instruction.ofOpRegs .Add a b c).destination = some c ∧
      (Instruction.ofOpRegs .Sub a b c).destination = some c ∧
      (Instruction.ofOpRegs .Mul a b c).destination = some c ∧
      (Instruction.ofOpRegs .Div a b c).destination = some c) ∧
    (∀ a b : Register, instruction = .ofOpRegs .Add a b a →
      (cycle vm).isRunning = true ∧
      (cycle vm).machine.reg a = wrap32 (vm.operandRead a + vm.operandRead b) ∧
      (a ≠ Register.PC → b ≠ Register.PC →
        (cycle vm).machine.reg a = wrap32 (vm.reg a + vm.reg b)) ∧
      (a ≠ Register.PC → b ≠ Register.PC →
        -2147483648 ≤ vm.reg a + vm.reg b → vm.reg a + vm.reg b < 2147483648 →
        (cycle vm).machine.reg a = vm.reg a + vm.reg b)) := by
  refine ⟨?_, ?_, ?_, ?_⟩
  · intro q hq hd
    have h : (cycle vm).machine.registers q = vm.registers q := by
      rw [cycle_of_fetch vm _ hfetch, dispatch_frame _ instruction q hq hd]
      exact VirtualMachine.registers_setPc_other vm _ q hq
    exact ⟨h, by rw [VirtualMachine.reg, h, VirtualMachine.reg]⟩
  · intro r v
    exact ⟨rfl, rfl, rfl⟩
  · intro a b c
    exact ⟨rfl, rfl, rfl, rfl⟩
  · intro a b hi
    subst hi
    have hc := add_cycle vm a b a hfetch
    have hval : (cycle vm).machine.reg a = wrap32 (vm.operandRead a + vm.operandRead b) := by
      rw [hc, Outcome.machine, Add, VirtualMachine.reg_setReg_same,
        VirtualMachine.reg_after_fetch, VirtualMachine.reg_after_fetch]
    have hold : a ≠ Register.PC → b ≠ Register.PC →
        (cycle vm).machine.reg a = wrap32 (vm.reg a + vm.reg b) := by
      intro ha hb
      rw [hval]
      simp [VirtualMachine.operandRead, ha, hb]
    refine ⟨by rw [hc]; rfl, hval, hold, ?_⟩
    intro ha hb hlo hhi
    rw [hold ha hb]
    exact wrap32_of_range _ hlo hhi

/-- Witness for C18: A = 3, B = 4, C = 5 and `Add A,B,A`: A becomes 7, B and C stay. -/
theorem cycle_writes_pc_and_destination_witness :
    (cycle addInPlaceMachine).machine.reg .A = 7 ∧
    (cycle addInPlaceMachine).machine.reg .B = 4 ∧
    (cycle addInPlaceMachine).machine.reg .C = 5 := by
  obtain ⟨hframe, _, _, hadd⟩ :=
    cycle_writes_pc_and_destination addInPlaceMachine (.ofOpRegs .Add .A .B .A)
      (by decide) (fun _ => ⟨.A, rfl⟩)
  obtain ⟨_, _, _, hexact⟩ := hadd .A .B rfl
  refine ⟨?_, ?_, ?_⟩
  · rw [hexact (by decide) (by decide) (by decide) (by decide)]
    decide
  · rw [(hframe .B (by decide) (by decide)).2]
    decide
  · rw [(hframe .C (by decide) (by decide)).2]
    decide

theorem add_from_payload_example :
    (Instruction.ofOpRegValue .Add .A 770).operandB = some .B ∧
    (Instruction.ofOpRegValue .Add .A 770).operandC = some .C ∧
    (Instruction.ofOpRegValue .Add .A 770).destination = some .C ∧
    (cycle addFromPayloadMachine).isRunning = true ∧
    (cycle addFromPayloadMachine).machine.reg .C = 7 ∧
    (Instruction.ofOpRegs .Load .A .G .G).uvalue = some 1799 ∧
    (Instruction.ofOpRegs .Load .A .B .C).value = some 770 := by
  decide

/-! ## JumpIfZero on PC -/

/-- Claim C19. PC is slot 0 of the register array and `Fetch` increments it before the
handler runs, so a `JumpIfZero` whose test register is PC is never taken: for every
machine with program counter `i`, `i + 1 < 2^32`, and every `addr16`, a cycle that
fetches `JumpIfZero PC,addr16` completes with the program counter at `i + 1`, the
handler having read the nonzero value `i + 1` (as a signed cell), and no other
register changed. -/
theorem jumpIfZero_on_pc_not_taken (vm : VirtualMachine) (addr16 : Nat)
    (hlt : vm.pc + 1 < 4294967296)
    (hfetch : vm.instructions[vm.pc]? = some (.ofOpRegValue .JumpIfZero .PC addr16)) :
    ∃ vm' : VirtualMachine, cycle vm = .running vm' ∧
      vm'.pc = vm.pc + 1 ∧
      Register.index Register.PC = 0 ∧
      vm.operandRead Register.PC = wrap32 ((vm.pc : Int) + 1) ∧
      vm.operandRead Register.PC ≠ 0 ∧
      (∀ q : Register, q ≠ Register.PC → vm'.registers q = vm.registers q) := by
  have hread : vm.operandRead Register.PC = wrap32 ((vm.pc : Int) + 1) := by
    rw [VirtualMachine.operandRead, if_pos rfl]
  have hnz : vm.operandRead Register.PC ≠ 0 := by
    rw [hread]
    unfold wrap32
    omega
  have hnz' : (vm.setPc (vm.pc + 1)).reg Register.PC ≠ 0 := by
    rw [VirtualMachine.reg_after_fetch]
    exact hnz
  have hc : cycle vm = .running (vm.setPc (vm.pc + 1)) := by
    rw [cycle_of_fetch vm _ hfetch]
    simp only [dispatch, Instruction.op, Instruction.operandA, Instruction.uvalue,
      JumpIfZero, if_neg hnz']
  refine ⟨_, hc, ?_, rfl, hread, hnz, ?_⟩
  · rw [VirtualMachine.pc_setPc]
    exact Nat.mod_eq_of_lt hlt
  · intro q hq
    exact VirtualMachine.registers_setPc_other vm _ q hq

/-- Witness for C19: `JumpIfZero PC,0` fetched at program counter 2 leaves it at 3. -/
theorem jumpIfZero_on_pc_not_taken_witness :
    ∃ vm' : VirtualMachine, cycle jumpIfZeroPcMachine = .running vm' ∧ vm'.pc = 3 := by
  obtain ⟨vm', hc, hpc, _⟩ :=
    jumpIfZero_on_pc_not_taken jumpIfZeroPcMachine 0 (by decide) (by decide)
  exact ⟨vm', hc, by rw [hpc]; decide⟩

end SimpleVM
